import Mathlib

/-!
Verification of the wireweave VS Code extension's local text analysis:
the diagnostics scanner and completion-context matchers of `src/language.ts`
and the presentation helpers of `src/preview.ts` and `src/extension.ts`.
JavaScript strings are modelled as lists of characters throughout; a document
is the list of characters of its text, and its lines are obtained by
splitting on the newline character, exactly as the source does.
-/

namespace Wireweave

/-- JavaScript word characters: ASCII letters, digits and the underscore. -/
def isWordChar (c : Char) : Bool := c.isAlphanum || c = '_'

/-- Brace characters tracked by the scanner. -/
def isBrace (c : Char) : Bool := c = '\x7b' || c = '\x7d'

/-- JavaScript `text.split('\n')`: the list of lines, keeping empty segments. -/
def splitLines : List Char → List (List Char)
  | [] => [[]]
  | c :: rest =>
    if c = '\n' then [] :: splitLines rest
    else
      match splitLines rest with
      | l :: ls => (c :: l) :: ls
      | [] => [[c]]

/-- JavaScript `String.trim`: strip whitespace from both ends. -/
def trimChars (s : List Char) : List Char :=
  ((s.dropWhile Char.isWhitespace).reverse.dropWhile Char.isWhitespace).reverse

/-- The scanner's comment test: `line.trim().startsWith('//')`. -/
def isCommentLine (l : List Char) : Bool :=
  ['/', '/'].isPrefixOf (trimChars l)

/-- The anchored page pattern: optional whitespace, `page`, then a word boundary. -/
def matchPageStart (l : List Char) : Bool :=
  match l.dropWhile Char.isWhitespace with
  | 'p' :: 'a' :: 'g' :: 'e' :: rest =>
    match rest with
    | [] => true
    | c :: _ => !isWordChar c
  | _ => false

/-- The anchored component pattern: leading whitespace, a word run, then a whitespace
character, an opening brace or a double quote; yields the word run. Because the
pattern is anchored at the line start, the JS match index is always 0. -/
def matchComponentStart (l : List Char) : Option (List Char) :=
  let rest := l.dropWhile Char.isWhitespace
  let run := rest.takeWhile isWordChar
  if run.isEmpty then none
  else
    match rest.drop run.length with
    | c :: _ => if c.isWhitespace || c = '\x7b' || c = '"' then some run else none
    | [] => none

/-- The suffix pattern matching an equals sign followed only by trailing whitespace. -/
def endsWithEqWs (s : List Char) : Bool :=
  (s.reverse.dropWhile Char.isWhitespace).head? == some '='

/-- All matches of the global attribute pattern: a word boundary, a word run, optional
whitespace, then an equals sign; yields (index, identifier) pairs. Stepping one
character at a time while tracking whether the previous character is a word character
visits exactly the start positions the JS engine can use, because no new match can
begin strictly inside a previous match (its tail consists of word characters,
whitespace and the equals sign, none of which starts a bounded word run). -/
def scanAttrs : List Char → Nat → Bool → List (Nat × List Char)
  | [], _, _ => []
  | c :: rest, p, prevWord =>
    let found :=
      if !prevWord && isWordChar c then
        let run := (c :: rest).takeWhile isWordChar
        let afterRun := (c :: rest).drop run.length
        if (afterRun.dropWhile Char.isWhitespace).head? = some '=' then [(p, run)]
        else []
      else []
    found ++ scanAttrs rest (p + 1) (isWordChar c)

/-- The unanchored suffix pattern used to name a component before an opening brace:
a word run, optionally followed by whitespace and a double-quoted string, then
trailing whitespace at the end of the text; yields the word run. -/
def matchTrailingName (s : List Char) : Option (List Char) :=
  let r := s.reverse.dropWhile Char.isWhitespace
  let quoted : Option (List Char) :=
    match r with
    | '"' :: r2 =>
      let content := r2.takeWhile (fun c => c ≠ '"')
      match r2.drop content.length with
      | '"' :: r3 =>
        let ws := r3.takeWhile Char.isWhitespace
        if ws.isEmpty then none
        else
          let run := (r3.drop ws.length).takeWhile isWordChar
          if run.isEmpty then none else some run.reverse
      | _ => none
    | _ => none
  match quoted with
  | some n => some n
  | none =>
    let run := r.takeWhile isWordChar
    if run.isEmpty then none else some run.reverse

/-- One backward pass over the reversed prefix of a line: a closing brace increments
the depth, an opening brace decrements it; when the depth would go negative, the
column of that opening brace (its index in the original orientation, which equals the
number of characters still unscanned) is returned. -/
def scanBack : List Char → Nat → Sum Nat Nat
  | [], count => Sum.inr count
  | c :: rest, count =>
    if c = '\x7d' then scanBack rest (count + 1)
    else if c = '\x7b' then
      if count = 0 then Sum.inl rest.length else scanBack rest (count - 1)
    else scanBack rest count

/-- Backward line-by-line search for the innermost unmatched opening brace; the text
before that brace names the enclosing component. The first entry of the list is the
prefix of the cursor line before the cursor; the rest are the earlier lines, nearest
first. -/
def findParentLoop : List (List Char) → Nat → Option (List Char)
  | [], _ => none
  | cur :: earlier, count =>
    match scanBack cur.reverse count with
    | Sum.inl col => matchTrailingName (cur.take col)
    | Sum.inr count2 => findParentLoop earlier count2

/-- findParentComponent of `src/language.ts`. -/
def findParentComponent (lines : List (List Char)) (posLine posChar : Nat) :
    Option (List Char) :=
  findParentLoop (((lines.getD posLine []).take posChar) :: (lines.take posLine).reverse) 0

/-! ## The diagnostics data model -/

inductive DiagnosticSeverity
  | error
  | warning
  | information
  deriving DecidableEq

structure Range where
  startLine : Nat
  startCharacter : Nat
  endLine : Nat
  endCharacter : Nat
  deriving DecidableEq

structure Diagnostic where
  range : Range
  message : List Char
  severity : DiagnosticSeverity
  deriving DecidableEq

structure BraceEntry where
  line : Nat
  col : Nat
  component : Option (List Char)
  deriving DecidableEq

/-- The external language-data collaborator, reduced to the two membership queries the
scanner makes: whether a name is a known component and whether it is a known
attribute. -/
structure LangData where
  isComponent : List Char → Bool
  isAttribute : List Char → Bool

def onlyOnePageMsg : List Char := "Only one page component is allowed.".data

def unknownComponentMsg (name : List Char) : List Char :=
  "Unknown component: \"".data ++ name ++ "\"".data

def unknownAttributeMsg (name : List Char) : List Char :=
  "Unknown attribute: \"".data ++ name ++ "\"".data

def unmatchedBraceMsg : List Char := "Unmatched closing brace".data

def unclosedStringMsg : List Char := "Unclosed string".data

/-- The unclosed-brace message, carrying the recorded component name when there is one.
The recorded name is never empty (it is a nonempty word run), so JS truthiness on it
agrees with option presence. -/
def unclosedBraceMsg : Option (List Char) → List Char
  | some name => "Unclosed brace (".data ++ name ++ ")".data
  | none => "Unclosed brace".data

def missingPageMsg : List Char := "Consider starting with a page component.".data

/-! ## The diagnostics scanner -/

/-- The brace-tracking loop of validateDocument over the characters of one line,
starting at column j: pushes an entry on an opening brace (recording the component
named by the text before it), pops on a closing brace, and reports an unmatched
closing brace when the stack is empty. -/
def trackBraces (i : Nat) (line : List Char) :
    List Char → Nat → List BraceEntry → List Diagnostic × List BraceEntry
  | [], _, stack => ([], stack)
  | c :: rest, j, stack =>
    if c = '\x7b' then
      let beforeBrace := line.take j
      trackBraces i line rest (j + 1) (⟨i, j, matchTrailingName beforeBrace⟩ :: stack)
    else if c = '\x7d' then
      match stack with
      | [] =>
        let r := trackBraces i line rest (j + 1) []
        (⟨⟨i, j, i, j + 1⟩, unmatchedBraceMsg, .error⟩ :: r.1, r.2)
      | _ :: stack' => trackBraces i line rest (j + 1) stack'
    else trackBraces i line rest (j + 1) stack

/-- The duplicate-page rule of validateDocument for one line: its diagnostics and the
updated page flag. -/
def pagePartFn (i : Nat) (line : List Char) (hasPage : Bool) :
    List Diagnostic × Bool :=
  if matchPageStart line then
    (if hasPage then [⟨⟨i, 0, i, line.length⟩, onlyOnePageMsg, .error⟩] else [], true)
  else ([], hasPage)

/-- The unknown-component rule of validateDocument for one line. -/
def compDiagsFn (data : LangData) (i : Nat) (line : List Char) : List Diagnostic :=
  match matchComponentStart line with
  | some compName =>
    if !data.isComponent compName &&
       !(compName == "true".data || compName == "false".data) then
      -- the component pattern is anchored at the line start, so the JS match
      -- index is always 0
      let matchIndex := 0
      let beforeMatch := line.take matchIndex
      if endsWithEqWs beforeMatch then []
      else [⟨⟨i, matchIndex, i, matchIndex + compName.length⟩,
             unknownComponentMsg compName, .warning⟩]
    else []
  | none => []

/-- The unknown-attribute rule of validateDocument for one line. -/
def attrDiagsFn (data : LangData) (i : Nat) (line : List Char) : List Diagnostic :=
  ((scanAttrs line 0 false).filter
    (fun m => !data.isAttribute m.2 && !data.isComponent m.2)).map
    (fun m => ⟨⟨i, m.1, i, m.1 + m.2.length⟩, unknownAttributeMsg m.2, .warning⟩)

/-- The quote-parity rule of validateDocument for one line. -/
def quoteDiagsFn (i : Nat) (line : List Char) : List Diagnostic :=
  if line.count '"' % 2 ≠ 0 then
    [⟨⟨i, 0, i, line.length⟩, unclosedStringMsg, .error⟩]
  else []

/-- The per-line body of validateDocument: comment lines are skipped wholesale; other
lines are checked for a duplicate page component, an unknown leading component, unknown
attributes, brace matching and quote parity, in the source's order. -/
def checkLine (data : LangData) (i : Nat) (line : List Char)
    (stack : List BraceEntry) (hasPage : Bool) :
    List Diagnostic × List BraceEntry × Bool :=
  if isCommentLine line then ([], stack, hasPage)
  else
    ((pagePartFn i line hasPage).1 ++ compDiagsFn data i line ++
       attrDiagsFn data i line ++ (trackBraces i line line 0 stack).1 ++
       quoteDiagsFn i line,
     (trackBraces i line line 0 stack).2, (pagePartFn i line hasPage).2)

/-- The line loop of validateDocument, threading the brace stack and the page flag. -/
def validateLines (data : LangData) :
    List (List Char) → Nat → List BraceEntry → Bool →
    List Diagnostic × List BraceEntry × Bool
  | [], _, stack, hasPage => ([], stack, hasPage)
  | l :: rest, i, stack, hasPage =>
    let step := checkLine data i l stack hasPage
    let restResult := validateLines data rest (i + 1) step.2.1 step.2.2
    (step.1 ++ restResult.1, restResult.2.1, restResult.2.2)

/-- validateDocument of `src/language.ts`: one forward pass over the lines, then one
unclosed-brace error per leftover stack entry (in insertion order) and an informational
advisory when no page component was seen in a nonblank document. -/
def validateDocument (data : LangData) (text : List Char) : List Diagnostic :=
  let lines := splitLines text
  let result := validateLines data lines 0 [] false
  let unclosed := result.2.1.reverse.map
    (fun b => (⟨⟨b.line, b.col, b.line, b.col + 1⟩,
                unclosedBraceMsg b.component, .error⟩ : Diagnostic))
  let missing :=
    if !result.2.2 && !(trimChars text).isEmpty then
      [(⟨⟨0, 0, 0, 0⟩, missingPageMsg, .information⟩ : Diagnostic)]
    else []
  result.1 ++ unclosed ++ missing

/-! ## The completion provider -/

/-- An attribute's value domain: free-form string, numeric, an enumerated set of
literals, or undefined (boolean flag attributes). -/
inductive AttrValues
  | str
  | num
  | enum (vals : List (List Char))
  | undef
  deriving DecidableEq

structure AttributeDef where
  name : List Char
  values : AttrValues
  deriving DecidableEq

structure ComponentDef where
  name : List Char
  hasChildren : Bool
  deriving DecidableEq

/-- The external language-data collaborator as the completion provider consumes it:
the component and attribute tables plus the two derived queries it calls. -/
structure CompletionData where
  components : List ComponentDef
  attributes : List AttributeDef
  validChildren : List Char → List (List Char)
  componentAttributes : List Char → List AttributeDef

/-- Lookup of a component definition by its unique name key. -/
def getComponentDef (d : CompletionData) (n : List Char) : Option ComponentDef :=
  d.components.find? (fun c => c.name == n)

/-- Lookup of an attribute definition by its unique name key. -/
def getAttributeDef (d : CompletionData) (n : List Char) : Option AttributeDef :=
  d.attributes.find? (fun a => a.name == n)

inductive CompletionItemKind
  | Class
  | EnumMember
  | Value
  | Reference
  | Property
  deriving DecidableEq

/-- A completion item reduced to its label and kind; the remaining fields of the
source items (detail, documentation, snippet, sort text) are presentation metadata
built from the same data. -/
structure CompletionItem where
  label : List Char
  kind : CompletionItemKind
  deriving DecidableEq

/-- The suffix pattern for a value position: a word run, an equals sign between
optional whitespace, at the end of the text; yields the word run. -/
def matchAttrEq (s : List Char) : Option (List Char) :=
  let r := s.reverse.dropWhile Char.isWhitespace
  if r.head? = some '=' then
    let run := (r.tail.dropWhile Char.isWhitespace).takeWhile isWordChar
    if run.isEmpty then none else some run.reverse
  else none

/-- The all-whitespace line pattern. -/
def matchAllWs (s : List Char) : Bool := s.all Char.isWhitespace

/-- The suffix pattern for an opening brace followed only by trailing whitespace. -/
def matchOpenBraceEnd (s : List Char) : Bool :=
  (s.reverse.dropWhile Char.isWhitespace).head? == some '\x7b'

/-- The suffix pattern for an attribute position: a word run, an optional
whitespace-preceded double-quoted string, at least one whitespace character, then a
possibly empty word run at the end; yields the first word run and the trailing run. -/
def matchCompThenPrefix (s : List Char) : Option (List Char × List Char) :=
  let r := s.reverse
  let partWord := r.takeWhile isWordChar
  let r1 := r.drop partWord.length
  let ws := r1.takeWhile Char.isWhitespace
  if ws.isEmpty then none
  else
    let r2 := r1.drop ws.length
    let quoted : Option (List Char) :=
      if r2.head? = some '"' then
        let r3 := r2.tail
        let content := r3.takeWhile (fun c => c ≠ '"')
        let r4 := r3.drop content.length
        if r4.head? = some '"' then
          let ws2 := r4.tail.takeWhile Char.isWhitespace
          if ws2.isEmpty then none
          else
            let run := (r4.tail.drop ws2.length).takeWhile isWordChar
            if run.isEmpty then none else some run.reverse
        else none
      else none
    match quoted with
    | some n => some (n, partWord.reverse)
    | none =>
      let run := r2.takeWhile isWordChar
      if run.isEmpty then none else some (run.reverse, partWord.reverse)

/-- The fixed curated numeric suggestions. -/
def numberSuggestions : List CompletionItem :=
  [1, 2, 3, 4, 5, 6, 8, 10, 12, 16, 24, 32].map
    (fun n => ⟨(toString n).data, CompletionItemKind.Value⟩)

/-- The default fallback: every component and every attribute. -/
def defaultSuggestions (d : CompletionData) : List CompletionItem :=
  d.components.map (fun c => (⟨c.name, CompletionItemKind.Class⟩ : CompletionItem)) ++
  d.attributes.map (fun a => (⟨a.name, CompletionItemKind.Property⟩ : CompletionItem))

/-- provideCompletionItems of `src/language.ts`, reduced to labels and kinds. The
value branch falls through to the later branches when the attribute is unknown or its
value domain is neither an enumeration nor numeric, exactly as the source returns
only from inside the enumerated and numeric cases. -/
def provideCompletionItems (d : CompletionData) (lines : List (List Char))
    (posLine posChar : Nat) : List CompletionItem :=
  let lineText := lines.getD posLine []
  let textUntilPosition := lineText.take posChar
  let valueItems : Option (List CompletionItem) :=
    match matchAttrEq textUntilPosition with
    | some attrName =>
      match getAttributeDef d attrName with
      | some attr =>
        match attr.values with
        | AttrValues.enum vals =>
          some (vals.map (fun v => ⟨v, CompletionItemKind.EnumMember⟩))
        | AttrValues.num => some numberSuggestions
        | _ => none
      | none => none
    | none => none
  match valueItems with
  | some items => items
  | none =>
    if matchAllWs textUntilPosition || matchOpenBraceEnd textUntilPosition then
      let parentComponent := findParentComponent lines posLine posChar
      let validChildNames :=
        match parentComponent with
        | some p => d.validChildren p
        | none => []
      let isRootLevel := parentComponent.isNone
      d.components.map (fun comp =>
        let isValidInContext :=
          if isRootLevel then comp.name == "page".data
          else validChildNames.isEmpty || validChildNames.contains comp.name
        ⟨comp.name,
         if isValidInContext then CompletionItemKind.Class
         else CompletionItemKind.Reference⟩)
    else
      match matchCompThenPrefix textUntilPosition with
      | some (compName, _) =>
        match getComponentDef d compName with
        | some _ =>
          (d.componentAttributes compName).map
            (fun a => (⟨a.name, CompletionItemKind.Property⟩ : CompletionItem))
        | none =>
          d.attributes.map
            (fun a => (⟨a.name, CompletionItemKind.Property⟩ : CompletionItem))
      | none => defaultSuggestions d

/-! ## The presentation adapter -/

/-- The first top-level element's geometry attributes, as the adapters read them. -/
structure FirstPage where
  width : Option Nat
  height : Option Nat
  viewport : Option (List Char)
  device : Option (List Char)
  deriving DecidableEq

structure ViewportSize where
  width : Nat
  height : Nat
  deriving DecidableEq

/-- JavaScript `Math.round(w * 0.75)` for a natural number w: three quarters rounded
half up; exact because 0.75 is exactly representable and the product is an integer
multiple of one quarter. -/
def roundThreeQuarters (w : Nat) : Nat := (3 * w + 2) / 4

/-- JavaScript numeric truthiness of an optional number: present and nonzero. -/
def truthyNum : Option Nat → Bool
  | some n => n != 0
  | none => false

/-- Base width and height selection in getWebviewContent of `src/preview.ts` (the
fixed-scale panel): the resolver runs exactly when a viewport or device is declared;
explicit width and height attributes are never consulted. -/
def baseSizePanelFixed
    (resolveViewport : Option (List Char) → Option (List Char) → ViewportSize)
    (previewWidth : Nat) (firstPage : Option FirstPage) : Nat × Nat :=
  let fallback := (previewWidth, roundThreeQuarters previewWidth)
  match firstPage with
  | some p =>
    if p.viewport.isSome || p.device.isSome then
      let v := resolveViewport p.viewport p.device
      (v.width, v.height)
    else fallback
  | none => fallback

/-- Base width and height selection in getWebviewContent of the viewBox preview panel:
explicit truthy width and height first, else the resolver with the declared viewport
and device, else the configured fallback when there is no first element. -/
def baseSizePanelViewBox
    (resolveViewport : Option (List Char) → Option (List Char) → ViewportSize)
    (previewWidth : Nat) (firstPage : Option FirstPage) : Nat × Nat :=
  match firstPage with
  | some p =>
    if truthyNum p.width && truthyNum p.height then (p.width.getD 0, p.height.getD 0)
    else
      let v := resolveViewport p.viewport p.device
      (v.width, v.height)
  | none => (previewWidth, roundThreeQuarters previewWidth)

/-- Base width and height selection in renderWireframeToHtml of `src/extension.ts`
(the markdown embed): there is no children-length guard and no configured fallback;
with no first element every optional access yields undefined and the resolver is
called with no viewport and no device. -/
def baseSizeMarkdown
    (resolveViewport : Option (List Char) → Option (List Char) → ViewportSize)
    (firstPage : Option FirstPage) : Nat × Nat :=
  if truthyNum (firstPage.bind FirstPage.width) &&
     truthyNum (firstPage.bind FirstPage.height) then
    ((firstPage.bind FirstPage.width).getD 0, (firstPage.bind FirstPage.height).getD 0)
  else
    let v := resolveViewport (firstPage.bind FirstPage.viewport)
      (firstPage.bind FirstPage.device)
    (v.width, v.height)

/-- Modelled from the spec: the claimed viewport precedence - explicit numeric width
and height on the first element, else the named viewport/device resolved via the
external resolver, else the configured preview width with the 4:3 fallback height. -/
def viewportPrecedenceSpec
    (resolveViewport : Option (List Char) → Option (List Char) → ViewportSize)
    (previewWidth : Nat) (firstPage : Option FirstPage) : Nat × Nat :=
  match firstPage with
  | some p =>
    if truthyNum p.width && truthyNum p.height then (p.width.getD 0, p.height.getD 0)
    else
      let v := resolveViewport p.viewport p.device
      (v.width, v.height)
  | none => (previewWidth, roundThreeQuarters previewWidth)

/-- Global single-character replacement: the effect of JS String.replace with a
one-character global pattern. -/
def replaceChar (c : Char) (r : List Char) : List Char → List Char
  | [] => []
  | x :: xs => (if x = c then r else [x]) ++ replaceChar c r xs

/-- escapeHtml of `src/preview.ts` (both preview panels): replaces the five HTML
special characters, in the source's chain order. -/
def escapeHtml (s : List Char) : List Char :=
  replaceChar '\x27' "&#039;".data
    (replaceChar '"' "&quot;".data
      (replaceChar '>' "&gt;".data
        (replaceChar '<' "&lt;".data
          (replaceChar '&' "&amp;".data s))))

/-- escapeHtml of `src/extension.ts` (the markdown integration): replaces only four
characters; the apostrophe is left unchanged. -/
def escapeHtmlMarkdown (s : List Char) : List Char :=
  replaceChar '"' "&quot;".data
    (replaceChar '>' "&gt;".data
      (replaceChar '<' "&lt;".data
        (replaceChar '&' "&amp;".data s)))

/-! ## Specification-side measures over the scanner -/

/-- Reference brace automaton: processes a character sequence, returning the final
stack height and the number of underflowing closing braces. -/
def runBraces : List Char → Nat → Nat × Nat
  | [], h => (h, 0)
  | c :: rest, h =>
    if c = '\x7b' then runBraces rest (h + 1)
    else if c = '\x7d' then
      if h = 0 then
        let r := runBraces rest 0
        (r.1, r.2 + 1)
      else runBraces rest (h - 1)
    else runBraces rest h

/-- The brace characters of the non-comment lines, in scan order. -/
def braceSeq : List (List Char) → List Char
  | [] => []
  | l :: rest =>
    (if isCommentLine l then [] else l.filter isBrace) ++ braceSeq rest

/-- The scanner-visible braces of a document are balanced: the reference automaton
ends with an empty stack and no underflow. -/
def balancedBraces (lines : List (List Char)) : Prop :=
  runBraces (braceSeq lines) 0 = (0, 0)

instance (lines : List (List Char)) : Decidable (balancedBraces lines) := by
  unfold balancedBraces; infer_instance

def isUnmatchedDiag (d : Diagnostic) : Bool := d.message == unmatchedBraceMsg

def isUnclosedBraceDiag (d : Diagnostic) : Bool :=
  "Unclosed brace".data.isPrefixOf d.message

def countUnmatched (ds : List Diagnostic) : Nat := ds.countP isUnmatchedDiag

def countUnclosed (ds : List Diagnostic) : Nat := ds.countP isUnclosedBraceDiag

/-- The count of a character over the non-comment lines of a document. -/
def countCharNC (lines : List (List Char)) (c : Char) : Nat :=
  ((lines.filter (fun l => !isCommentLine l)).map (fun l => l.count c)).sum

/-- The number of non-comment lines beginning with the root page token. -/
def pageLineCount (lines : List (List Char)) : Nat :=
  (lines.filter (fun l => !isCommentLine l && matchPageStart l)).length

/-- Language data with no known names, used for concrete counterexamples whose
behavior does not depend on the external tables. -/
def emptyLangData : LangData := ⟨fun _ => false, fun _ => false⟩

/-! ## Helper lemmas -/

theorem mem_replaceChar {d c : Char} {r : List Char} {s : List Char}
    (h : d ∈ replaceChar c r s) : d ∈ r ∨ d ∈ s := by
  induction s with
  | nil => simp [replaceChar] at h
  | cons x xs ih =>
    simp only [replaceChar, List.mem_append] at h
    rcases h with h | h
    · by_cases hx : x = c
      · rw [if_pos hx] at h
        exact Or.inl h
      · rw [if_neg hx] at h
        simp only [List.mem_singleton] at h
        exact Or.inr (h ▸ List.mem_cons_self x xs)
    · rcases ih h with h | h
      · exact Or.inl h
      · exact Or.inr (List.mem_cons_of_mem x h)

theorem not_mem_replaceChar {d c : Char} {r s : List Char}
    (hr : d ∉ r) (hs : d ∉ s) : d ∉ replaceChar c r s :=
  fun h => (mem_replaceChar h).elim hr hs

theorem not_mem_replaceChar_self {c : Char} {r : List Char}
    (hr : c ∉ r) : ∀ {s : List Char}, c ∉ replaceChar c r s := by
  intro s
  induction s with
  | nil => simp [replaceChar]
  | cons x xs ih =>
    simp only [replaceChar, List.mem_append]
    rintro (h | h)
    · by_cases hx : x = c
      · rw [if_pos hx] at h
        exact hr h
      · rw [if_neg hx] at h
        simp only [List.mem_singleton] at h
        exact hx h.symm
    · exact ih h

theorem isWordChar_not_whitespace {c : Char} (h : isWordChar c = true) :
    c.isWhitespace = false := by
  cases hw : c.isWhitespace
  · rfl
  · exfalso
    have hd : ((c = ' ' ∨ c = '\t') ∨ c = '\x0d') ∨ c = '\n' := by
      simpa [Char.isWhitespace] using hw
    rcases hd with ((h1 | h1) | h1) | h1 <;> subst h1 <;> simp [isWordChar] at h

theorem dropWhile_append_singleton {p : Char → Bool} {c : Char} (hc : p c = false) :
    ∀ xs : List Char, (xs ++ [c]).dropWhile p = xs.dropWhile p ++ [c]
  | [] => by simp [List.dropWhile, hc]
  | x :: xs => by
    by_cases hx : p x
    · simp [List.dropWhile, hx, dropWhile_append_singleton hc xs]
    · simp [List.dropWhile, hx]

/-- The head of the word run matched by the component pattern is a word character, so
the trimmed line starts with it and the line is not a comment line. -/
theorem matchComponentStart_not_comment {l n : List Char}
    (h : matchComponentStart l = some n) : isCommentLine l = false := by
  unfold matchComponentStart at h
  cases hrest : l.dropWhile Char.isWhitespace with
  | nil => rw [hrest] at h; simp at h
  | cons c rest' =>
    rw [hrest] at h
    have hc : isWordChar c = true := by
      by_cases hw : isWordChar c
      · exact hw
      · exfalso
        simp [List.takeWhile, hw] at h
    have hcw := isWordChar_not_whitespace hc
    have htrim : trimChars l =
        c :: (rest'.reverse.dropWhile Char.isWhitespace).reverse := by
      unfold trimChars
      rw [hrest]
      rw [show (c :: rest').reverse = rest'.reverse ++ [c] by simp]
      rw [dropWhile_append_singleton hcw rest'.reverse]
      simp
    unfold isCommentLine
    rw [htrim]
    have hne : c ≠ '/' := by
      intro he
      subst he
      simp [isWordChar] at hc
    simp [List.isPrefixOf]
    intro he
    exact absurd he.symm hne

theorem trackBraces_open (i : Nat) (line rest : List Char) (j : Nat)
    (stack : List BraceEntry) :
    trackBraces i line ('\x7b' :: rest) j stack =
      trackBraces i line rest (j + 1)
        (⟨i, j, matchTrailingName (line.take j)⟩ :: stack) := rfl

theorem trackBraces_close_nil (i : Nat) (line rest : List Char) (j : Nat) :
    trackBraces i line ('\x7d' :: rest) j [] =
      (⟨⟨i, j, i, j + 1⟩, unmatchedBraceMsg, .error⟩ ::
         (trackBraces i line rest (j + 1) []).1,
       (trackBraces i line rest (j + 1) []).2) := rfl

theorem trackBraces_close_cons (i : Nat) (line rest : List Char) (j : Nat)
    (e : BraceEntry) (s' : List BraceEntry) :
    trackBraces i line ('\x7d' :: rest) j (e :: s') =
      trackBraces i line rest (j + 1) s' := rfl

theorem trackBraces_other (i : Nat) (line rest : List Char) (j : Nat)
    (stack : List BraceEntry) (c : Char) (h1 : c ≠ '\x7b') (h2 : c ≠ '\x7d') :
    trackBraces i line (c :: rest) j stack =
      trackBraces i line rest (j + 1) stack := by
  conv_lhs => unfold trackBraces
  rw [if_neg h1, if_neg h2]

/-- Brace accounting for one line: the stack length plus the closing-brace count
equals the initial stack length plus the opening-brace count plus the number of
unmatched-brace diagnostics; every brace character of the line participates,
independent of any quoting context. -/
theorem trackBraces_count (i : Nat) (line : List Char) :
    ∀ (cs : List Char) (j : Nat) (stack : List BraceEntry),
      (trackBraces i line cs j stack).2.length + cs.count '\x7d' =
      stack.length + cs.count '\x7b' + (trackBraces i line cs j stack).1.length := by
  intro cs
  induction cs with
  | nil => intro j stack; simp [trackBraces]
  | cons c rest ih =>
    intro j stack
    by_cases h1 : c = '\x7b'
    · subst h1
      have e1 : List.count '\x7d' ('\x7b' :: rest) = List.count '\x7d' rest :=
        List.count_cons_of_ne (by decide) rest
      have e2 : List.count '\x7b' ('\x7b' :: rest) = List.count '\x7b' rest + 1 :=
        List.count_cons_self '\x7b' rest
      rw [trackBraces_open, e1, e2]
      have h := ih (j + 1) (⟨i, j, matchTrailingName (line.take j)⟩ :: stack)
      simp only [List.length_cons] at h
      omega
    · by_cases h2 : c = '\x7d'
      · subst h2
        have e1 : List.count '\x7d' ('\x7d' :: rest) = List.count '\x7d' rest + 1 :=
          List.count_cons_self '\x7d' rest
        have e2 : List.count '\x7b' ('\x7d' :: rest) = List.count '\x7b' rest :=
          List.count_cons_of_ne (by decide) rest
        cases stack with
        | nil =>
          rw [trackBraces_close_nil, e1, e2]
          have h := ih (j + 1) ([] : List BraceEntry)
          simp only [List.length_nil, List.length_cons] at h ⊢
          omega
        | cons e s' =>
          rw [trackBraces_close_cons, e1, e2]
          have h := ih (j + 1) s'
          simp only [List.length_cons] at h ⊢
          omega
      · have e1 : List.count '\x7d' (c :: rest) = List.count '\x7d' rest :=
          List.count_cons_of_ne (fun he => h2 he.symm) rest
        have e2 : List.count '\x7b' (c :: rest) = List.count '\x7b' rest :=
          List.count_cons_of_ne (fun he => h1 he.symm) rest
        rw [trackBraces_other i line rest j stack c h1 h2, e1, e2]
        exact ih (j + 1) stack

theorem runBraces_append (a b : List Char) :
    ∀ h : Nat,
      runBraces (a ++ b) h =
        ((runBraces b (runBraces a h).1).1,
         (runBraces a h).2 + (runBraces b (runBraces a h).1).2) := by
  induction a with
  | nil => intro h; simp [runBraces]
  | cons c rest ih =>
    intro h
    by_cases h1 : c = '\x7b'
    · subst h1
      exact ih (h + 1)
    · by_cases h2 : c = '\x7d'
      · subst h2
        cases h with
        | zero =>
          rw [show runBraces (('\x7d' :: rest) ++ b) 0 =
            ((runBraces (rest ++ b) 0).1, (runBraces (rest ++ b) 0).2 + 1) from rfl]
          rw [show runBraces ('\x7d' :: rest) 0 =
            ((runBraces rest 0).1, (runBraces rest 0).2 + 1) from rfl]
          rw [ih 0]
          simp [Prod.ext_iff]
          omega
        | succ n =>
          exact ih n
      · have e : ∀ (x : List Char) (hh : Nat), runBraces (c :: x) hh = runBraces x hh := by
          intro x hh
          conv_lhs => unfold runBraces
          rw [if_neg h1, if_neg h2]
        rw [show (c :: rest) ++ b = c :: (rest ++ b) from rfl, e (rest ++ b) h, e rest h]
        exact ih h

theorem runBraces_count (cs : List Char) :
    ∀ h : Nat,
      (runBraces cs h).1 + cs.count '\x7d' =
      h + cs.count '\x7b' + (runBraces cs h).2 := by
  induction cs with
  | nil => intro h; simp [runBraces]
  | cons c rest ih =>
    intro h
    by_cases h1 : c = '\x7b'
    · subst h1
      have e1 : List.count '\x7d' ('\x7b' :: rest) = List.count '\x7d' rest :=
        List.count_cons_of_ne (by decide) rest
      have e2 : List.count '\x7b' ('\x7b' :: rest) = List.count '\x7b' rest + 1 :=
        List.count_cons_self '\x7b' rest
      rw [show runBraces ('\x7b' :: rest) h = runBraces rest (h + 1) from rfl, e1, e2]
      have := ih (h + 1)
      omega
    · by_cases h2 : c = '\x7d'
      · subst h2
        have e1 : List.count '\x7d' ('\x7d' :: rest) = List.count '\x7d' rest + 1 :=
          List.count_cons_self '\x7d' rest
        have e2 : List.count '\x7b' ('\x7d' :: rest) = List.count '\x7b' rest :=
          List.count_cons_of_ne (by decide) rest
        cases h with
        | zero =>
          rw [show runBraces ('\x7d' :: rest) 0 =
            ((runBraces rest 0).1, (runBraces rest 0).2 + 1) from rfl, e1, e2]
          have := ih 0
          omega
        | succ n =>
          rw [show runBraces ('\x7d' :: rest) (n + 1) = runBraces rest n from rfl, e1, e2]
          have := ih n
          omega
      · have e1 : List.count '\x7d' (c :: rest) = List.count '\x7d' rest :=
          List.count_cons_of_ne (fun he => h2 he.symm) rest
        have e2 : List.count '\x7b' (c :: rest) = List.count '\x7b' rest :=
          List.count_cons_of_ne (fun he => h1 he.symm) rest
        have e : runBraces (c :: rest) h = runBraces rest h := by
          conv_lhs => unfold runBraces
          rw [if_neg h1, if_neg h2]
        rw [e, e1, e2]
        exact ih h

/-- The scanner's per-line brace tracking is simulated exactly by the reference
automaton run on the line's brace characters, starting from the stack height. -/
theorem trackBraces_run (i : Nat) (line : List Char) :
    ∀ (cs : List Char) (j : Nat) (stack : List BraceEntry),
      runBraces (cs.filter isBrace) stack.length =
        ((trackBraces i line cs j stack).2.length,
         (trackBraces i line cs j stack).1.length) := by
  intro cs
  induction cs with
  | nil => intro j stack; simp [runBraces, trackBraces]
  | cons c rest ih =>
    intro j stack
    by_cases h1 : c = '\x7b'
    · subst h1
      rw [trackBraces_open]
      rw [show List.filter isBrace ('\x7b' :: rest) = '\x7b' :: List.filter isBrace rest
        from by simp [isBrace]]
      rw [show ∀ x hh, runBraces ('\x7b' :: x) hh = runBraces x (hh + 1) from fun _ _ => rfl]
      have := ih (j + 1) (⟨i, j, matchTrailingName (line.take j)⟩ :: stack)
      simpa using this
    · by_cases h2 : c = '\x7d'
      · subst h2
        rw [show List.filter isBrace ('\x7d' :: rest) = '\x7d' :: List.filter isBrace rest
          from by simp [isBrace]]
        cases stack with
        | nil =>
          rw [trackBraces_close_nil]
          rw [show (([] : List BraceEntry)).length = 0 from rfl]
          rw [show ∀ x, runBraces ('\x7d' :: x) 0 =
            ((runBraces x 0).1, (runBraces x 0).2 + 1) from fun _ => rfl]
          have := ih (j + 1) ([] : List BraceEntry)
          rw [show (([] : List BraceEntry)).length = 0 from rfl] at this
          rw [this]
          simp
        | cons e s' =>
          rw [trackBraces_close_cons]
          rw [show (e :: s').length = s'.length + 1 from rfl]
          rw [show ∀ x n, runBraces ('\x7d' :: x) (n + 1) = runBraces x n from fun _ _ => rfl]
          exact ih (j + 1) s'
      · rw [trackBraces_other i line rest j stack c h1 h2]
        rw [show List.filter isBrace (c :: rest) = List.filter isBrace rest
          from by simp [isBrace, h1, h2]]
        exact ih (j + 1) stack

theorem beq_unknownComponentMsg_unmatched (n : List Char) :
    (unknownComponentMsg n == unmatchedBraceMsg) = false := rfl

theorem beq_unknownAttributeMsg_unmatched (n : List Char) :
    (unknownAttributeMsg n == unmatchedBraceMsg) = false := rfl

theorem not_unclosed_isPrefix_unknownComponentMsg (n : List Char) :
    "Unclosed brace".data.isPrefixOf (unknownComponentMsg n) = false := rfl

theorem not_unclosed_isPrefix_unknownAttributeMsg (n : List Char) :
    "Unclosed brace".data.isPrefixOf (unknownAttributeMsg n) = false := rfl

theorem beq_unclosedBraceMsg_unmatched (co : Option (List Char)) :
    (unclosedBraceMsg co == unmatchedBraceMsg) = false := by
  cases co <;> rfl

theorem unclosed_isPrefix_unclosedBraceMsg (co : Option (List Char)) :
    "Unclosed brace".data.isPrefixOf (unclosedBraceMsg co) = true := by
  cases co <;> rfl

/-- Every diagnostic emitted by the brace loop is an unmatched-closing-brace error at
a single column within the processed character range. -/
theorem trackBraces_msg (i : Nat) (line : List Char) :
    ∀ (cs : List Char) (j : Nat) (stack : List BraceEntry),
      ∀ d ∈ (trackBraces i line cs j stack).1,
        ∃ c', j ≤ c' ∧ c' < j + cs.length ∧
          d = ⟨⟨i, c', i, c' + 1⟩, unmatchedBraceMsg, .error⟩ := by
  intro cs
  induction cs with
  | nil => intro j stack d hd; simp [trackBraces] at hd
  | cons c rest ih =>
    intro j stack d hd
    by_cases h1 : c = '\x7b'
    · subst h1
      rw [trackBraces_open] at hd
      obtain ⟨c', hc1, hc2, he⟩ := ih (j + 1) _ d hd
      refine ⟨c', by omega, ?_, he⟩
      simp only [List.length_cons]
      omega
    · by_cases h2 : c = '\x7d'
      · subst h2
        cases stack with
        | nil =>
          rw [trackBraces_close_nil] at hd
          rcases List.mem_cons.mp hd with he | hd2
          · refine ⟨j, le_refl j, ?_, he⟩
            simp only [List.length_cons]
            omega
          · obtain ⟨c', hc1, hc2, he⟩ := ih (j + 1) [] d hd2
            refine ⟨c', by omega, ?_, he⟩
            simp only [List.length_cons]
            omega
        | cons e s' =>
          rw [trackBraces_close_cons] at hd
          obtain ⟨c', hc1, hc2, he⟩ := ih (j + 1) s' d hd
          refine ⟨c', by omega, ?_, he⟩
          simp only [List.length_cons]
          omega
      · rw [trackBraces_other i line rest j stack c h1 h2] at hd
        obtain ⟨c', hc1, hc2, he⟩ := ih (j + 1) stack d hd
        refine ⟨c', by omega, ?_, he⟩
        simp only [List.length_cons]
        omega

/-- Every entry of the brace loop's output stack is an input entry or was pushed at a
column within the processed character range of the current line. -/
theorem trackBraces_stack (i : Nat) (line : List Char) :
    ∀ (cs : List Char) (j : Nat) (stack : List BraceEntry),
      ∀ e ∈ (trackBraces i line cs j stack).2,
        e ∈ stack ∨ (e.line = i ∧ e.col < j + cs.length) := by
  intro cs
  induction cs with
  | nil => intro j stack e he; simp [trackBraces] at he; exact Or.inl (by simp [he])
  | cons c rest ih =>
    intro j stack e he
    by_cases h1 : c = '\x7b'
    · subst h1
      rw [trackBraces_open] at he
      rcases ih (j + 1) _ e he with hmem | ⟨hl, hc⟩
      · rcases List.mem_cons.mp hmem with he2 | hmem2
        · subst he2
          refine Or.inr ⟨rfl, ?_⟩
          simp only [List.length_cons]
          omega
        · exact Or.inl hmem2
      · refine Or.inr ⟨hl, ?_⟩
        simp only [List.length_cons]
        omega
    · by_cases h2 : c = '\x7d'
      · subst h2
        cases stack with
        | nil =>
          rw [trackBraces_close_nil] at he
          rcases ih (j + 1) [] e he with hmem | ⟨hl, hc⟩
          · simp at hmem
          · refine Or.inr ⟨hl, ?_⟩
            simp only [List.length_cons]
            omega
        | cons e0 s' =>
          rw [trackBraces_close_cons] at he
          rcases ih (j + 1) s' e he with hmem | ⟨hl, hc⟩
          · exact Or.inl (List.mem_cons_of_mem e0 hmem)
          · refine Or.inr ⟨hl, ?_⟩
            simp only [List.length_cons]
            omega
      · rw [trackBraces_other i line rest j stack c h1 h2] at he
        rcases ih (j + 1) stack e he with hmem | ⟨hl, hc⟩
        · exact Or.inl hmem
        · refine Or.inr ⟨hl, ?_⟩
          simp only [List.length_cons]
          omega


theorem checkLine_comment (data : LangData) (i : Nat) (line : List Char)
    (stack : List BraceEntry) (hasPage : Bool) (h : isCommentLine line = true) :
    checkLine data i line stack hasPage = ([], stack, hasPage) := by
  unfold checkLine
  rw [if_pos h]

theorem pagePartFn_mem {i : Nat} {line : List Char} {hp : Bool} {d : Diagnostic}
    (hd : d ∈ (pagePartFn i line hp).1) :
    d = ⟨⟨i, 0, i, line.length⟩, onlyOnePageMsg, .error⟩ ∧ hp = true ∧
      matchPageStart line = true := by
  unfold pagePartFn at hd
  by_cases h1 : matchPageStart line
  · rw [if_pos h1] at hd
    cases hp with
    | true => simp at hd; exact ⟨hd, rfl, h1⟩
    | false => simp at hd
  · rw [if_neg h1] at hd
    simp at hd

theorem compDiagsFn_mem {data : LangData} {i : Nat} {line : List Char} {d : Diagnostic}
    (hd : d ∈ compDiagsFn data i line) :
    ∃ n, matchComponentStart line = some n ∧
      d = ⟨⟨i, 0, i, 0 + n.length⟩, unknownComponentMsg n, .warning⟩ := by
  unfold compDiagsFn at hd
  cases hm : matchComponentStart line with
  | none => rw [hm] at hd; simp at hd
  | some n =>
    rw [hm] at hd
    dsimp only at hd
    refine ⟨n, rfl, ?_⟩
    split_ifs at hd with hc he <;> simp_all

theorem attrDiagsFn_mem {data : LangData} {i : Nat} {line : List Char} {d : Diagnostic}
    (hd : d ∈ attrDiagsFn data i line) :
    ∃ p n, (p, n) ∈ scanAttrs line 0 false ∧
      d = ⟨⟨i, p, i, p + n.length⟩, unknownAttributeMsg n, .warning⟩ := by
  unfold attrDiagsFn at hd
  rcases List.mem_map.mp hd with ⟨m, hm, he⟩
  exact ⟨m.1, m.2, (List.mem_filter.mp hm).1, he.symm⟩

theorem quoteDiagsFn_mem {i : Nat} {line : List Char} {d : Diagnostic}
    (hd : d ∈ quoteDiagsFn i line) :
    d = ⟨⟨i, 0, i, line.length⟩, unclosedStringMsg, .error⟩ ∧
      line.count '"' % 2 ≠ 0 := by
  unfold quoteDiagsFn at hd
  split_ifs at hd with h1 <;> simp_all

theorem checkLine_counts (data : LangData) (i : Nat) (line : List Char)
    (stack : List BraceEntry) (hp : Bool) :
    countUnmatched (checkLine data i line stack hp).1 =
      (runBraces (if isCommentLine line then [] else line.filter isBrace)
        stack.length).2 ∧
    countUnclosed (checkLine data i line stack hp).1 = 0 ∧
    (checkLine data i line stack hp).2.1.length =
      (runBraces (if isCommentLine line then [] else line.filter isBrace)
        stack.length).1 := by
  by_cases hc : isCommentLine line
  · simp [checkLine, hc, runBraces, countUnmatched, countUnclosed]
  · have hrun := trackBraces_run i line line 0 stack
    rw [if_neg hc]
    unfold checkLine
    rw [if_neg (by simp [hc])]
    have hpage0 : ∀ d ∈ (pagePartFn i line hp).1,
        isUnmatchedDiag d = false ∧ isUnclosedBraceDiag d = false := by
      intro d hd
      rw [(pagePartFn_mem hd).1]
      exact ⟨rfl, rfl⟩
    have hcomp0 : ∀ d ∈ compDiagsFn data i line,
        isUnmatchedDiag d = false ∧ isUnclosedBraceDiag d = false := by
      intro d hd
      obtain ⟨n, _, he⟩ := compDiagsFn_mem hd
      rw [he]
      exact ⟨beq_unknownComponentMsg_unmatched n,
             not_unclosed_isPrefix_unknownComponentMsg n⟩
    have hattr0 : ∀ d ∈ attrDiagsFn data i line,
        isUnmatchedDiag d = false ∧ isUnclosedBraceDiag d = false := by
      intro d hd
      obtain ⟨p, n, _, he⟩ := attrDiagsFn_mem hd
      rw [he]
      exact ⟨beq_unknownAttributeMsg_unmatched n,
             not_unclosed_isPrefix_unknownAttributeMsg n⟩
    have hquote0 : ∀ d ∈ quoteDiagsFn i line,
        isUnmatchedDiag d = false ∧ isUnclosedBraceDiag d = false := by
      intro d hd
      rw [(quoteDiagsFn_mem hd).1]
      exact ⟨rfl, rfl⟩
    have hbrace : ∀ d ∈ (trackBraces i line line 0 stack).1,
        isUnmatchedDiag d = true ∧ isUnclosedBraceDiag d = false := by
      intro d hd
      obtain ⟨c', _, _, he⟩ := trackBraces_msg i line line 0 stack d hd
      rw [he]
      exact ⟨rfl, rfl⟩
    refine ⟨?_, ?_, ?_⟩
    · unfold countUnmatched
      rw [List.countP_append, List.countP_append, List.countP_append,
          List.countP_append]
      rw [List.countP_eq_zero.mpr (fun d hd => by simp [(hpage0 d hd).1]),
          List.countP_eq_zero.mpr (fun d hd => by simp [(hcomp0 d hd).1]),
          List.countP_eq_zero.mpr (fun d hd => by simp [(hattr0 d hd).1]),
          List.countP_eq_length.mpr (fun d hd => (hbrace d hd).1),
          List.countP_eq_zero.mpr (fun d hd => by simp [(hquote0 d hd).1])]
      rw [hrun]
      omega
    · unfold countUnclosed
      rw [List.countP_append, List.countP_append, List.countP_append,
          List.countP_append]
      rw [List.countP_eq_zero.mpr (fun d hd => by simp [(hpage0 d hd).2]),
          List.countP_eq_zero.mpr (fun d hd => by simp [(hcomp0 d hd).2]),
          List.countP_eq_zero.mpr (fun d hd => by simp [(hattr0 d hd).2]),
          List.countP_eq_zero.mpr (fun d hd => by simp [(hbrace d hd).2]),
          List.countP_eq_zero.mpr (fun d hd => by simp [(hquote0 d hd).2])]
    · rw [hrun]


theorem validateLines_cons (data : LangData) (l : List Char) (rest : List (List Char))
    (i : Nat) (stack : List BraceEntry) (hp : Bool) :
    validateLines data (l :: rest) i stack hp =
      ((checkLine data i l stack hp).1 ++
         (validateLines data rest (i + 1) (checkLine data i l stack hp).2.1
           (checkLine data i l stack hp).2.2).1,
       (validateLines data rest (i + 1) (checkLine data i l stack hp).2.1
         (checkLine data i l stack hp).2.2).2.1,
       (validateLines data rest (i + 1) (checkLine data i l stack hp).2.1
         (checkLine data i l stack hp).2.2).2.2) := rfl

theorem braceSeq_cons (l : List Char) (rest : List (List Char)) :
    braceSeq (l :: rest) =
      (if isCommentLine l then [] else l.filter isBrace) ++ braceSeq rest := rfl

theorem validateLines_counts (data : LangData) :
    ∀ (ls : List (List Char)) (i : Nat) (stack : List BraceEntry) (hp : Bool),
      countUnmatched (validateLines data ls i stack hp).1 =
        (runBraces (braceSeq ls) stack.length).2 ∧
      countUnclosed (validateLines data ls i stack hp).1 = 0 ∧
      (validateLines data ls i stack hp).2.1.length =
        (runBraces (braceSeq ls) stack.length).1 := by
  intro ls
  induction ls with
  | nil =>
    intro i stack hp
    simp [validateLines, braceSeq, runBraces, countUnmatched, countUnclosed]
  | cons l rest ih =>
    intro i stack hp
    obtain ⟨hcu, hcc, hsl⟩ := checkLine_counts data i l stack hp
    obtain ⟨ru, rc, rl⟩ :=
      ih (i + 1) (checkLine data i l stack hp).2.1 (checkLine data i l stack hp).2.2
    rw [validateLines_cons, braceSeq_cons,
        runBraces_append (if isCommentLine l then [] else l.filter isBrace)
          (braceSeq rest) stack.length]
    rw [hsl] at rl ru
    refine ⟨?_, ?_, ?_⟩
    · unfold countUnmatched at *
      rw [List.countP_append, hcu, ru]
    · unfold countUnclosed at *
      rw [List.countP_append, hcc, rc]
    · rw [rl]

theorem validateDocument_counts (data : LangData) (text : List Char) :
    countUnmatched (validateDocument data text) =
      (runBraces (braceSeq (splitLines text)) 0).2 ∧
    countUnclosed (validateDocument data text) =
      (runBraces (braceSeq (splitLines text)) 0).1 := by
  obtain ⟨hu, hc, hl⟩ := validateLines_counts data (splitLines text) 0 [] false
  unfold validateDocument
  have hmap_u : countUnmatched
      ((validateLines data (splitLines text) 0 [] false).2.1.reverse.map
        (fun b => (⟨⟨b.line, b.col, b.line, b.col + 1⟩,
                    unclosedBraceMsg b.component, .error⟩ : Diagnostic))) = 0 := by
    refine List.countP_eq_zero.mpr ?_
    intro d hd
    rcases List.mem_map.mp hd with ⟨b, _, he⟩
    rw [← he]
    simp [isUnmatchedDiag, beq_unclosedBraceMsg_unmatched]
  have hmap_c : countUnclosed
      ((validateLines data (splitLines text) 0 [] false).2.1.reverse.map
        (fun b => (⟨⟨b.line, b.col, b.line, b.col + 1⟩,
                    unclosedBraceMsg b.component, .error⟩ : Diagnostic))) =
      (validateLines data (splitLines text) 0 [] false).2.1.length := by
    unfold countUnclosed
    rw [List.countP_eq_length.mpr ?_]
    · rw [List.length_map, List.length_reverse]
    · intro d hd
      rcases List.mem_map.mp hd with ⟨b, _, he⟩
      rw [← he]
      exact unclosed_isPrefix_unclosedBraceMsg b.component
  have hmiss_u : countUnmatched
      (if !(validateLines data (splitLines text) 0 [] false).2.2 &&
          !(trimChars text).isEmpty then
        [(⟨⟨0, 0, 0, 0⟩, missingPageMsg, .information⟩ : Diagnostic)]
      else []) = 0 := by
    split_ifs <;> rfl
  have hmiss_c : countUnclosed
      (if !(validateLines data (splitLines text) 0 [] false).2.2 &&
          !(trimChars text).isEmpty then
        [(⟨⟨0, 0, 0, 0⟩, missingPageMsg, .information⟩ : Diagnostic)]
      else []) = 0 := by
    split_ifs <;> rfl
  constructor
  · unfold countUnmatched at *
    rw [List.countP_append, List.countP_append, hu, hmap_u, hmiss_u]
    simp
  · unfold countUnclosed at *
    rw [List.countP_append, List.countP_append, hc, hmap_c, hmiss_c, hl]
    simp

theorem countCharNC_cons (l : List Char) (rest : List (List Char)) (c : Char) :
    countCharNC (l :: rest) c =
      (if isCommentLine l then 0 else l.count c) + countCharNC rest c := by
  unfold countCharNC
  by_cases hc : isCommentLine l <;> simp [List.filter_cons, hc]

theorem count_braceSeq (c : Char) (hc : isBrace c = true) :
    ∀ ls : List (List Char), (braceSeq ls).count c = countCharNC ls c := by
  intro ls
  induction ls with
  | nil => simp [braceSeq, countCharNC]
  | cons l rest ih =>
    rw [braceSeq_cons, countCharNC_cons, List.count_append, ih]
    by_cases h : isCommentLine l
    · simp [h]
    · simp only [h, if_false, Bool.false_eq_true]
      rw [List.count_filter hc]
/-- Claim C2, amended: over the non-comment lines of the document, the count of
opening braces minus the count of closing braces equals the number of unclosed-brace
diagnostics minus the number of unmatched-closing-brace diagnostics. (The original
two-sided claim fails: an underflowing closing brace both emits an unmatched
diagnostic and removes itself from the difference, so the positive difference can be
smaller than the number of unclosed diagnostics, and comment-line braces are not
tracked at all.) -/
theorem C2_theorem (data : LangData) (text : List Char) :
    (countUnclosed (validateDocument data text) : Int) -
      (countUnmatched (validateDocument data text) : Int) =
    (countCharNC (splitLines text) '\x7b' : Int) -
      (countCharNC (splitLines text) '\x7d' : Int) := by
  obtain ⟨hu, hc⟩ := validateDocument_counts data text
  have hcount := runBraces_count (braceSeq (splitLines text)) 0
  have h1 := count_braceSeq '\x7b' (by decide) (splitLines text)
  have h2 := count_braceSeq '\x7d' (by decide) (splitLines text)
  rw [hu, hc]
  omega

/-- Claim C2, counterexample: the document consisting of one line with a closing
brace then two opening braces has an opening-minus-closing count of 1, yet the
scanner emits two unclosed-brace diagnostics (and one unmatched), so the claimed
equality fails. -/
theorem C2_counterexample :
    countCharNC (splitLines "\x7d\x7b\x7b".data) '\x7b' = 2 ∧
    countCharNC (splitLines "\x7d\x7b\x7b".data) '\x7d' = 1 ∧
    countUnclosed (validateDocument emptyLangData "\x7d\x7b\x7b".data) = 2 ∧
    countUnmatched (validateDocument emptyLangData "\x7d\x7b\x7b".data) = 1 ∧
    countUnclosed (validateDocument emptyLangData "\x7d\x7b\x7b".data) ≠
      countCharNC (splitLines "\x7d\x7b\x7b".data) '\x7b' -
        countCharNC (splitLines "\x7d\x7b\x7b".data) '\x7d' :=
  ⟨by decide, by decide, by decide, by decide, by decide⟩

/-! ## Claim C3 -/


theorem checkLine_hasPage (data : LangData) (i : Nat) (l : List Char)
    (stack : List BraceEntry) (hp : Bool) :
    (checkLine data i l stack hp).2.2 =
      (hp || (!isCommentLine l && matchPageStart l)) := by
  by_cases hc : isCommentLine l
  · simp [checkLine, hc]
  · unfold checkLine
    rw [if_neg (by simp [hc])]
    unfold pagePartFn
    by_cases hm : matchPageStart l <;> simp [hm, hc]

theorem pageLineCount_cons (l : List Char) (rest : List (List Char)) :
    pageLineCount (l :: rest) =
      (if !isCommentLine l && matchPageStart l then 1 else 0) + pageLineCount rest := by
  unfold pageLineCount
  by_cases h : (!isCommentLine l && matchPageStart l) = true
  · simp [List.filter_cons, h]
    omega
  · simp [List.filter_cons, h]

theorem validateLines_errors (data : LangData) :
    ∀ (ls : List (List Char)) (i : Nat) (stack : List BraceEntry) (hp : Bool),
      ∀ d ∈ (validateLines data ls i stack hp).1,
        d.severity = DiagnosticSeverity.error →
          isUnmatchedDiag d = true ∨
          (d.message = unclosedStringMsg ∧
            ∃ l ∈ ls, isCommentLine l = false ∧ l.count '"' % 2 ≠ 0) ∨
          (d.message = onlyOnePageMsg ∧
            ((hp = true ∧ 1 ≤ pageLineCount ls) ∨ 2 ≤ pageLineCount ls)) := by
  intro ls
  induction ls with
  | nil => intro i stack hp d hd; simp [validateLines] at hd
  | cons l rest ih =>
    intro i stack hp d hd hsev
    rw [validateLines_cons] at hd
    rcases List.mem_append.mp hd with hstep | hrest
    · by_cases hc : isCommentLine l
      · rw [checkLine_comment data i l stack hp hc] at hstep
        simp at hstep
      · unfold checkLine at hstep
        rw [if_neg (by simp [hc])] at hstep
        rcases List.mem_append.mp hstep with h4 | hquote
        · rcases List.mem_append.mp h4 with h3 | hbrace
          · rcases List.mem_append.mp h3 with h2 | hattr
            · rcases List.mem_append.mp h2 with hpage | hcompm
              · obtain ⟨he, hhp, hm⟩ := pagePartFn_mem hpage
                refine Or.inr (Or.inr ⟨by rw [he], Or.inl ⟨hhp, ?_⟩⟩)
                rw [pageLineCount_cons]
                simp [hc, hm]
              · obtain ⟨n, _, he⟩ := compDiagsFn_mem hcompm
                rw [he] at hsev
                simp at hsev
            · obtain ⟨p, n, _, he⟩ := attrDiagsFn_mem hattr
              rw [he] at hsev
              simp at hsev
          · obtain ⟨c', _, _, he⟩ := trackBraces_msg i l l 0 stack d hbrace
            rw [he]
            exact Or.inl rfl
        · obtain ⟨he, hodd⟩ := quoteDiagsFn_mem hquote
          exact Or.inr (Or.inl ⟨by rw [he], l, List.mem_cons_self l rest, by simp [hc], hodd⟩)
    · rcases ih (i + 1) (checkLine data i l stack hp).2.1
        (checkLine data i l stack hp).2.2 d hrest hsev with hu | ⟨hm, l', hl', hcl', hol'⟩ | ⟨hm, hcond⟩
      · exact Or.inl hu
      · exact Or.inr (Or.inl ⟨hm, l', List.mem_cons_of_mem l hl', hcl', hol'⟩)
      · refine Or.inr (Or.inr ⟨hm, ?_⟩)
        rw [checkLine_hasPage] at hcond
        rw [pageLineCount_cons]
        rcases hcond with ⟨hor, hpc⟩ | h2
        · cases hhp : hp
          · rw [hhp] at hor
            simp only [Bool.false_or] at hor
            rw [hor]
            right
            simp
            omega
          · left
            refine ⟨rfl, ?_⟩
            split_ifs <;> omega
        · right
          split_ifs <;> omega

/-- Claim C3, amended: for every document whose scanner-visible braces (those of
non-comment lines) are balanced, whose every line has an even number of quote
characters, and exactly one of whose non-comment lines begins with the root page
token, the scanner emits no diagnostic of severity error (warnings about unknown
names and the informational advisory may still appear). The original claim fails
because braces on comment lines count toward document balance but are invisible to
the scanner. -/
theorem C3_theorem (data : LangData) (text : List Char)
    (hbal : balancedBraces (splitLines text))
    (hq : ∀ l ∈ splitLines text, l.count '"' % 2 = 0)
    (hpage : pageLineCount (splitLines text) = 1) :
    (validateDocument data text).all
      (fun d => !(d.severity == DiagnosticSeverity.error)) = true := by
  rw [List.all_eq_true]
  intro d hd
  suffices hs : d.severity ≠ DiagnosticSeverity.error by
    simp [hs]
  intro hsev
  have hz : runBraces (braceSeq (splitLines text)) 0 = (0, 0) := hbal
  obtain ⟨hu, hcz, hl⟩ := validateLines_counts data (splitLines text) 0 [] false
  rw [show (([] : List BraceEntry)).length = 0 from rfl, hz] at hu hl
  unfold validateDocument at hd
  rcases List.mem_append.mp hd with h2 | hmiss
  · rcases List.mem_append.mp h2 with hmain | hunc
    · rcases validateLines_errors data (splitLines text) 0 [] false d hmain hsev with
        hum | ⟨_, l', _, _, hodd⟩ | ⟨_, hcond⟩
      · have := List.countP_eq_zero.mp hu d hmain
        simp [hum] at this
      · exact hodd (hq l' (by assumption))
      · rcases hcond with ⟨hfalse, _⟩ | h2p
        · simp at hfalse
        · omega
    · have hnil : (validateLines data (splitLines text) 0 [] false).2.1 = [] :=
        List.length_eq_zero.mp hl
      rw [hnil] at hunc
      simp at hunc
  · split_ifs at hmiss with hcnd
    · simp at hmiss
      rw [hmiss] at hsev
      simp at hsev
    · simp at hmiss

/-- Claim C3, witness: the amended theorem applied at a concrete balanced one-page
document. -/
theorem C3_witness :
    (validateDocument emptyLangData "page \x7b\x7d".data).all
      (fun d => !(d.severity == DiagnosticSeverity.error)) = true :=
  C3_theorem emptyLangData "page \x7b\x7d".data (by decide) (by decide) (by decide)

/-- Claim C3, counterexample: a document whose full-text braces are perfectly
balanced and well nested (the reference automaton on all brace characters ends at
(0,0)), whose every line has an even quote count, and which contains exactly one
root page line, yet the scanner emits an error (the comment-line opening brace is
invisible to it, so the final closing brace underflows). -/
theorem C3_counterexample :
    runBraces ("// \x7b\npage \x7b\n\x7d\n\x7d".data.filter isBrace) 0 = (0, 0) ∧
    (splitLines "// \x7b\npage \x7b\n\x7d\n\x7d".data).all
      (fun l => l.count '"' % 2 == 0) = true ∧
    ((splitLines "// \x7b\npage \x7b\n\x7d\n\x7d".data).filter
      (fun l => matchPageStart l)).length = 1 ∧
    (validateDocument emptyLangData "// \x7b\npage \x7b\n\x7d\n\x7d".data).all
      (fun d => !(d.severity == DiagnosticSeverity.error)) = false :=
  ⟨by decide, by decide, by decide, by decide⟩

/-! ## Claim C7 -/


theorem matchComponentStart_run {l n : List Char}
    (h : matchComponentStart l = some n) :
    n = (l.dropWhile Char.isWhitespace).takeWhile isWordChar := by
  unfold matchComponentStart at h
  by_cases he : ((l.dropWhile Char.isWhitespace).takeWhile isWordChar).isEmpty
  · rw [if_pos he] at h
    simp at h
  · rw [if_neg he] at h
    cases hdrop : (l.dropWhile Char.isWhitespace).drop
        ((l.dropWhile Char.isWhitespace).takeWhile isWordChar).length with
    | nil => rw [hdrop] at h; simp at h
    | cons c cs =>
      rw [hdrop] at h
      dsimp only at h
      by_cases hc : (c.isWhitespace || c = '\x7b' || c = '"') = true
      · rw [if_pos hc] at h
        exact (Option.some.inj h).symm
      · rw [if_neg hc] at h
        simp at h

theorem matchComponentStart_length {l n : List Char}
    (h : matchComponentStart l = some n) : n.length ≤ l.length := by
  rw [matchComponentStart_run h]
  calc ((l.dropWhile Char.isWhitespace).takeWhile isWordChar).length
      ≤ (l.dropWhile Char.isWhitespace).length :=
        (List.takeWhile_sublist _).length_le
    _ ≤ l.length := (List.dropWhile_sublist _).length_le

theorem scanAttrs_cons (c : Char) (rest : List Char) (p : Nat) (b : Bool) :
    scanAttrs (c :: rest) p b =
      (if !b && isWordChar c then
         (if (((c :: rest).drop ((c :: rest).takeWhile isWordChar).length).dropWhile
               Char.isWhitespace).head? = some '=' then
            [(p, (c :: rest).takeWhile isWordChar)]
          else [])
       else []) ++ scanAttrs rest (p + 1) (isWordChar c) := rfl

theorem scanAttrs_bound :
    ∀ (cs : List Char) (p : Nat) (b : Bool), ∀ m ∈ scanAttrs cs p b,
      p ≤ m.1 ∧ m.1 + m.2.length ≤ p + cs.length := by
  intro cs
  induction cs with
  | nil => intro p b m hm; simp [scanAttrs] at hm
  | cons c rest ih =>
    intro p b m hm
    rw [scanAttrs_cons] at hm
    rcases List.mem_append.mp hm with hf | hr
    · have hrun : m = (p, (c :: rest).takeWhile isWordChar) := by
        split_ifs at hf <;> simp_all
      rw [hrun]
      refine ⟨le_refl p, ?_⟩
      have := (List.takeWhile_sublist (l := c :: rest) (p := isWordChar)).length_le
      simp only [List.length_cons] at this ⊢
      omega
    · obtain ⟨h1, h2⟩ := ih (p + 1) (isWordChar c) m hr
      refine ⟨by omega, ?_⟩
      simp only [List.length_cons]
      omega


theorem checkLine_ranges (data : LangData) (i : Nat) (l : List Char)
    (stack : List BraceEntry) (hp : Bool) :
    ∀ d ∈ (checkLine data i l stack hp).1,
      d.range.startLine = i ∧ d.range.endLine = i ∧
        d.range.endCharacter ≤ l.length := by
  intro d hd
  by_cases hc : isCommentLine l
  · rw [checkLine_comment data i l stack hp hc] at hd
    simp at hd
  · unfold checkLine at hd
    rw [if_neg (by simp [hc])] at hd
    rcases List.mem_append.mp hd with h4 | hquote
    · rcases List.mem_append.mp h4 with h3 | hbrace
      · rcases List.mem_append.mp h3 with h2 | hattr
        · rcases List.mem_append.mp h2 with hpage | hcompm
          · rw [(pagePartFn_mem hpage).1]
            exact ⟨rfl, rfl, le_refl _⟩
          · obtain ⟨n, hn, he⟩ := compDiagsFn_mem hcompm
            rw [he]
            refine ⟨rfl, rfl, ?_⟩
            have := matchComponentStart_length hn
            simp only
            omega
        · obtain ⟨p, n, hpn, he⟩ := attrDiagsFn_mem hattr
          rw [he]
          refine ⟨rfl, rfl, ?_⟩
          have := (scanAttrs_bound l 0 false (p, n) hpn).2
          simp only at this ⊢
          omega
      · obtain ⟨c', hc1, hc2, he⟩ := trackBraces_msg i l l 0 stack d hbrace
        rw [he]
        refine ⟨rfl, rfl, ?_⟩
        simp only
        omega
    · rw [(quoteDiagsFn_mem hquote).1]
      exact ⟨rfl, rfl, le_refl _⟩

theorem checkLine_stack (data : LangData) (i : Nat) (l : List Char)
    (stack : List BraceEntry) (hp : Bool) :
    ∀ e ∈ (checkLine data i l stack hp).2.1,
      e ∈ stack ∨ (e.line = i ∧ e.col < l.length) := by
  intro e he
  by_cases hc : isCommentLine l
  · rw [checkLine_comment data i l stack hp hc] at he
    exact Or.inl he
  · unfold checkLine at he
    rw [if_neg (by simp [hc])] at he
    have := trackBraces_stack i l l 0 stack e he
    simpa using this

theorem validateLines_ranges (data : LangData) :
    ∀ (ls : List (List Char)) (i : Nat) (stack : List BraceEntry) (hp : Bool),
      (∀ d ∈ (validateLines data ls i stack hp).1,
        ∃ k, k < ls.length ∧ d.range.startLine = i + k ∧ d.range.endLine = i + k ∧
          d.range.endCharacter ≤ (ls.getD k []).length) ∧
      (∀ e ∈ (validateLines data ls i stack hp).2.1,
        e ∈ stack ∨ ∃ k, k < ls.length ∧ e.line = i + k ∧
          e.col < (ls.getD k []).length) := by
  intro ls
  induction ls with
  | nil =>
    intro i stack hp
    constructor
    · intro d hd; simp [validateLines] at hd
    · intro e he; simp only [validateLines] at he; exact Or.inl he
  | cons l rest ih =>
    intro i stack hp
    obtain ⟨ihd, ihe⟩ := ih (i + 1) (checkLine data i l stack hp).2.1
      (checkLine data i l stack hp).2.2
    constructor
    · intro d hd
      rw [validateLines_cons] at hd
      rcases List.mem_append.mp hd with hstep | hrest
      · obtain ⟨h1, h2, h3⟩ := checkLine_ranges data i l stack hp d hstep
        exact ⟨0, by simp, by omega, by omega, by simpa using h3⟩
      · obtain ⟨k, hk, h1, h2, h3⟩ := ihd d hrest
        refine ⟨k + 1, by simp; omega, by omega, by omega, ?_⟩
        simpa using h3
    · intro e he
      rw [validateLines_cons] at he
      rcases ihe e he with hmem | ⟨k, hk, h1, h2⟩
      · rcases checkLine_stack data i l stack hp e hmem with hmem2 | ⟨h1, h2⟩
        · exact Or.inl hmem2
        · exact Or.inr ⟨0, by simp, by omega, by simpa using h2⟩
      · exact Or.inr ⟨k + 1, by simp; omega, by omega, by simpa using h2⟩

theorem splitLines_length_pos (t : List Char) : 0 < (splitLines t).length := by
  cases t with
  | nil => simp [splitLines]
  | cons c rest =>
    unfold splitLines
    by_cases hc : c = '\n'
    · rw [if_pos hc]
      simp
    · rw [if_neg hc]
      cases splitLines rest <;> simp

/-- Claim C7: every diagnostic emitted by the scanner has a range within the bounds
of the line it references - its start and end line indices are valid line numbers of
the document, its start column is nonnegative, and its end column is at most the
length of the referenced line. -/
theorem C7_theorem (data : LangData) (text : List Char) (d : Diagnostic)
    (hd : d ∈ validateDocument data text) :
    d.range.startLine < (splitLines text).length ∧
    d.range.endLine < (splitLines text).length ∧
    0 ≤ d.range.startCharacter ∧
    d.range.endCharacter ≤ ((splitLines text).getD d.range.endLine []).length := by
  obtain ⟨hdiag, hstack⟩ := validateLines_ranges data (splitLines text) 0 [] false
  unfold validateDocument at hd
  rcases List.mem_append.mp hd with h2 | hmiss
  · rcases List.mem_append.mp h2 with hmain | hunc
    · obtain ⟨k, hk, h1, h2, h3⟩ := hdiag d hmain
      refine ⟨by omega, by omega, Nat.zero_le _, ?_⟩
      rw [h2]
      simpa using h3
    · rcases List.mem_map.mp hunc with ⟨b, hb, he⟩
      have hbm : b ∈ (validateLines data (splitLines text) 0 [] false).2.1 :=
        List.mem_reverse.mp hb
      rcases hstack b hbm with habs | ⟨k, hk, h1, h2⟩
      · simp at habs
      · rw [← he]
        refine ⟨by simp; omega, by simp; omega, Nat.zero_le _, ?_⟩
        simp only
        rw [h1, Nat.zero_add]
        omega
  · split_ifs at hmiss with hcond
    · simp at hmiss
      rw [hmiss]
      refine ⟨splitLines_length_pos text, splitLines_length_pos text,
        Nat.zero_le _, Nat.zero_le _⟩
    · simp at hmiss

/-- Claim C7, witness: the theorem applied to the unmatched-brace diagnostic of a
concrete one-character document. -/
theorem C7_witness :
    (⟨⟨0, 0, 0, 1⟩, unmatchedBraceMsg, .error⟩ : Diagnostic).range.startLine <
      (splitLines "\x7d".data).length ∧
    (⟨⟨0, 0, 0, 1⟩, unmatchedBraceMsg, .error⟩ : Diagnostic).range.endLine <
      (splitLines "\x7d".data).length ∧
    0 ≤ (⟨⟨0, 0, 0, 1⟩, unmatchedBraceMsg, .error⟩ : Diagnostic).range.startCharacter ∧
    (⟨⟨0, 0, 0, 1⟩, unmatchedBraceMsg, .error⟩ : Diagnostic).range.endCharacter ≤
      ((splitLines "\x7d".data).getD
        (⟨⟨0, 0, 0, 1⟩, unmatchedBraceMsg, .error⟩ : Diagnostic).range.endLine []).length :=
  C7_theorem emptyLangData "\x7d".data ⟨⟨0, 0, 0, 1⟩, unmatchedBraceMsg, .error⟩
    (by decide)

/-! ## Claim C6 -/


theorem drop_length_takeWhile (p : Char → Bool) :
    ∀ l : List Char, l.drop (l.takeWhile p).length = l.dropWhile p
  | [] => rfl
  | c :: rest => by
    by_cases hc : p c
    · simp [List.takeWhile, List.dropWhile, hc, drop_length_takeWhile p rest]
    · simp [List.takeWhile, List.dropWhile, hc]

theorem matchAttrEq_shape {s a : List Char} (h : matchAttrEq s = some a) :
    ∃ r2, s.reverse.dropWhile Char.isWhitespace = '=' :: r2 := by
  unfold matchAttrEq at h
  by_cases hh : (s.reverse.dropWhile Char.isWhitespace).head? = some '='
  · cases hc : s.reverse.dropWhile Char.isWhitespace with
    | nil => rw [hc] at hh; simp at hh
    | cons c r2 =>
      rw [hc] at hh
      simp at hh
      exact ⟨r2, by rw [hh]⟩
  · rw [if_neg hh] at h
    simp at h

theorem matchAttrEq_not_allWs {s a : List Char} (h : matchAttrEq s = some a) :
    matchAllWs s = false := by
  obtain ⟨r2, hr⟩ := matchAttrEq_shape h
  cases hw : matchAllWs s
  · rfl
  · exfalso
    unfold matchAllWs at hw
    have hall : ∀ c ∈ s.reverse, Char.isWhitespace c := by
      intro c hc
      exact List.all_eq_true.mp hw c (List.mem_reverse.mp hc)
    have : s.reverse.dropWhile Char.isWhitespace = [] :=
      List.dropWhile_eq_nil_iff.mpr hall
    rw [this] at hr
    cases hr

theorem matchAttrEq_not_braceEnd {s a : List Char} (h : matchAttrEq s = some a) :
    matchOpenBraceEnd s = false := by
  obtain ⟨r2, hr⟩ := matchAttrEq_shape h
  unfold matchOpenBraceEnd
  rw [hr]
  simp

theorem matchAttrEq_not_compAttr {s a : List Char} (h : matchAttrEq s = some a) :
    matchCompThenPrefix s = none := by
  obtain ⟨r2, hr⟩ := matchAttrEq_shape h
  unfold matchCompThenPrefix
  dsimp only
  cases hs : s.reverse with
  | nil => rw [hs] at hr; simp at hr
  | cons c r' =>
    rw [hs] at hr
    by_cases hwsc : Char.isWhitespace c
    · have hword : isWordChar c = false := by
        cases hw : isWordChar c
        · rfl
        · rw [isWordChar_not_whitespace hw] at hwsc; cases hwsc
      have htake : (c :: r').takeWhile isWordChar = [] := by
        simp [List.takeWhile, hword]
      rw [htake]
      simp only [List.length_nil, List.drop_zero]
      rw [drop_length_takeWhile Char.isWhitespace (c :: r'), hr]
      have hws1 : (c :: r').takeWhile Char.isWhitespace =
          c :: r'.takeWhile Char.isWhitespace := by
        simp [List.takeWhile, hwsc]
      rw [hws1]
      rw [if_neg (by simp)]
      rw [if_neg (by simp)]
      rw [show List.takeWhile isWordChar ('=' :: r2) = [] from by
        simp [List.takeWhile, isWordChar]]
      simp
    · have hdrop : (c :: r').dropWhile Char.isWhitespace = c :: r' := by
        simp [List.dropWhile, hwsc]
      rw [hdrop] at hr
      have hceq : c = '=' := (List.cons.injEq _ _ _ _ ▸ hr).1
      subst hceq
      rw [show ('=' :: r').takeWhile isWordChar = ([] : List Char) from by
        simp [List.takeWhile, isWordChar]]
      simp only [List.length_nil, List.drop_zero]
      rw [show ('=' :: r').takeWhile Char.isWhitespace = ([] : List Char) from by
        simp [List.takeWhile]]
      simp

/-- Claim C6, amended: when the text up to the cursor ends with an identifier
followed by an equals sign (and optional whitespace), the completion result is
exactly the attribute's enumerated literals when its domain is an enumeration, the
fixed curated integers when it is numeric, and otherwise (attribute unknown, string
or boolean domain) the provider falls through to the default branch and returns the
full union of every component and every attribute suggestion - not an empty result
as claimed. -/
theorem C6_theorem (d : CompletionData) (lines : List (List Char))
    (posLine posChar : Nat) (attrName : List Char)
    (h : matchAttrEq ((lines.getD posLine []).take posChar) = some attrName) :
    provideCompletionItems d lines posLine posChar =
      (match getAttributeDef d attrName with
       | some attr =>
         match attr.values with
         | AttrValues.enum vals =>
           vals.map (fun v => ⟨v, CompletionItemKind.EnumMember⟩)
         | AttrValues.num => numberSuggestions
         | _ => defaultSuggestions d
       | none => defaultSuggestions d) := by
  have hws := matchAttrEq_not_allWs h
  have hbr := matchAttrEq_not_braceEnd h
  have hcp := matchAttrEq_not_compAttr h
  unfold provideCompletionItems
  dsimp only
  rw [h, hws, hbr, hcp]
  cases hattr : getAttributeDef d attrName with
  | none => simp [hattr]
  | some attr => cases hv : attr.values <;> simp [hattr, hv]

/-- A small concrete instance of the external language-data tables. -/
def demoCompletionData : CompletionData where
  components := [⟨"page".data, true⟩]
  attributes := [⟨"justify".data,
    AttrValues.enum ["start".data, "center".data, "end".data]⟩]
  validChildren := fun _ => []
  componentAttributes := fun _ => []

/-- Claim C6, witness: the amended theorem applied at an enumerated attribute. -/
theorem C6_witness :
    matchAttrEq (("justify=".data : List Char).take 8) = some "justify".data ∧
    provideCompletionItems demoCompletionData ["justify=".data] 0 8 =
      [⟨"start".data, CompletionItemKind.EnumMember⟩,
       ⟨"center".data, CompletionItemKind.EnumMember⟩,
       ⟨"end".data, CompletionItemKind.EnumMember⟩] :=
  ⟨by decide,
   (C6_theorem demoCompletionData ["justify=".data] 0 8 "justify".data
     (by decide)).trans (by decide)⟩

/-- Claim C6, counterexample: with the cursor after `foo=` where `foo` is not a
known attribute, the claim demands a result with no component or attribute
suggestions, but the provider returns the full default union, which contains the
component suggestion `page`. -/
theorem C6_counterexample :
    provideCompletionItems demoCompletionData ["foo=".data] 0 4 =
      [⟨"page".data, CompletionItemKind.Class⟩,
       ⟨"justify".data, CompletionItemKind.Property⟩] ∧
    (⟨"page".data, CompletionItemKind.Class⟩ : CompletionItem) ∈
      provideCompletionItems demoCompletionData ["foo=".data] 0 4 ∧
    demoCompletionData.components.map ComponentDef.name = ["page".data] :=
  ⟨by decide, by decide, by decide⟩

/-! ## Claim C1 -/

/-- Claim C1, counterexample: the single line of this document is a comment line that
contains one opening brace and one double quote, yet the scanner emits no brace
diagnostic and no unclosed-string diagnostic at all - its only output is the
missing-page advisory. The claimed brace/quote tracking on comment lines would have
produced an unclosed-brace error (one more opening than closing brace) and an
unclosed-string error (odd quote count). -/
theorem C1_counterexample :
    isCommentLine "// \x7b\"".data = true ∧
    ("// \x7b\"".data.count '\x7b' = 1 ∧ "// \x7b\"".data.count '"' = 1) ∧
    validateDocument emptyLangData "// \x7b\"".data =
      [⟨⟨0, 0, 0, 0⟩, missingPageMsg, .information⟩] := by
  refine ⟨by decide, ⟨by decide, by decide⟩, by decide⟩

/-- Claim C1, amended: a line whose trimmed content starts with the line-comment
marker is skipped entirely by the scanner - it produces no diagnostics, and neither
its braces nor its quotes are tracked: the brace stack and the page flag pass through
unchanged. -/
theorem C1_theorem (data : LangData) (i : Nat) (line : List Char)
    (stack : List BraceEntry) (hasPage : Bool)
    (h : isCommentLine line = true) :
    checkLine data i line stack hasPage = ([], stack, hasPage) := by
  unfold checkLine
  rw [if_pos h]

/-- Claim C1, witness for the amended theorem at a concrete comment line. -/
theorem C1_witness :
    isCommentLine "// page \x7b".data = true ∧
    checkLine emptyLangData 0 "// page \x7b".data [] false = ([], [], false) :=
  ⟨by decide, C1_theorem emptyLangData 0 "// page \x7b".data [] false (by decide)⟩

/-! ## Claim C5 -/

/-- Claim C5, counterexample: the markdown-embed escape function leaves the apostrophe
unchanged instead of replacing it by its HTML entity. -/
theorem C5_counterexample :
    escapeHtmlMarkdown ['\x27'] = ['\x27'] ∧
    escapeHtmlMarkdown ['\x27'] ≠ "&#039;".data := by
  exact ⟨by decide, by decide⟩

/-- Claim C5, amended: the panel escape function replaces all five HTML special
characters by their entities; the markdown-embed escape function replaces only the
four characters ampersand, less-than, greater-than and double quote, leaving the
apostrophe unchanged. Both leave no raw angle bracket in their output, so an error
message containing a script tag is always rendered inert, as the concrete script-tag
evaluations show. -/
theorem C5_theorem :
    (∀ s : List Char,
      '<' ∉ escapeHtml s ∧ '>' ∉ escapeHtml s ∧
      '<' ∉ escapeHtmlMarkdown s ∧ '>' ∉ escapeHtmlMarkdown s) ∧
    escapeHtml "&<>\"\x27".data = "&amp;&lt;&gt;&quot;&#039;".data ∧
    escapeHtmlMarkdown "&<>\"\x27".data = "&amp;&lt;&gt;&quot;\x27".data ∧
    escapeHtml "<script>".data = "&lt;script&gt;".data ∧
    escapeHtmlMarkdown "<script>".data = "&lt;script&gt;".data := by
  refine ⟨fun s => ?_, by decide, by decide, by decide, by decide⟩
  unfold escapeHtml escapeHtmlMarkdown
  refine ⟨?_, ?_, ?_, ?_⟩
  · refine not_mem_replaceChar ?_ (not_mem_replaceChar ?_
      (not_mem_replaceChar ?_ (not_mem_replaceChar_self ?_))) <;> decide
  · refine not_mem_replaceChar ?_ (not_mem_replaceChar ?_
      (not_mem_replaceChar_self ?_)) <;> decide
  · refine not_mem_replaceChar ?_ (not_mem_replaceChar ?_
      (not_mem_replaceChar_self ?_)) <;> decide
  · refine not_mem_replaceChar ?_ (not_mem_replaceChar_self ?_) <;> decide

/-! ## Claim C8 -/

/-- Claim C8: the scanner is a pure function of the document snapshot - two scans of
identical text yield identical diagnostic lists (same ranges, severities and
messages, in the same order); the input text is a value and is never mutated. -/
theorem C8_theorem (data : LangData) (t1 t2 : List Char) (h : t1 = t2) :
    validateDocument data t1 = validateDocument data t2 := by
  rw [h]

/-- Claim C8, witness at a concrete document. -/
theorem C8_witness :
    validateDocument emptyLangData "page \x7b\x7d".data =
    validateDocument emptyLangData "page \x7b\x7d".data :=
  C8_theorem emptyLangData "page \x7b\x7d".data "page \x7b\x7d".data rfl

/-! ## Claim C4 -/

/-- A concrete external resolver used in the presentation counterexamples. -/
def demoResolver : Option (List Char) → Option (List Char) → ViewportSize :=
  fun _ _ => ⟨999, 555⟩

/-- Claim C4, counterexample: the fixed-scale panel ignores explicit width and height
(the first element carries width 640 and height 480 but the panel keeps the
configured 1200 x 900), and the markdown embed with no first element calls the
resolver instead of using any configured width. -/
theorem C4_counterexample :
    baseSizePanelFixed demoResolver 1200 (some ⟨some 640, some 480, none, none⟩) =
      (1200, 900) ∧
    viewportPrecedenceSpec demoResolver 1200 (some ⟨some 640, some 480, none, none⟩) =
      (640, 480) ∧
    (1200, 900) ≠ ((640, 480) : Nat × Nat) ∧
    baseSizeMarkdown demoResolver none = (999, 555) ∧
    (999, 555) ≠ ((1200, roundThreeQuarters 1200) : Nat × Nat) := by
  exact ⟨by decide, by decide, by decide, by decide, by decide⟩

/-- Claim C4, amended: the claimed precedence (explicit truthy width and height,
else the resolver, else the configured width with 4:3 height) holds on the viewBox
preview panel only. The fixed-scale panel never consults explicit width/height - its
result is invariant under changing them, and it resolves exactly when a viewport or
device is declared. The markdown embed has no configured fallback: with no first
element it calls the resolver with no viewport and no device. -/
theorem C4_theorem :
    (∀ (rv : Option (List Char) → Option (List Char) → ViewportSize)
       (pw : Nat) (fp : Option FirstPage),
       baseSizePanelViewBox rv pw fp = viewportPrecedenceSpec rv pw fp) ∧
    (∀ (rv : Option (List Char) → Option (List Char) → ViewportSize)
       (pw : Nat) (p q : FirstPage),
       p.viewport = q.viewport → p.device = q.device →
       baseSizePanelFixed rv pw (some p) = baseSizePanelFixed rv pw (some q)) ∧
    (∀ rv : Option (List Char) → Option (List Char) → ViewportSize,
       baseSizeMarkdown rv none = ((rv none none).width, (rv none none).height)) := by
  refine ⟨fun rv pw fp => rfl, fun rv pw p q h1 h2 => ?_, fun rv => rfl⟩
  simp only [baseSizePanelFixed, h1, h2]

/-- Claim C4, witness: the amended theorem applied at concrete inputs. -/
theorem C4_witness :
    baseSizePanelViewBox demoResolver 1200 none =
      viewportPrecedenceSpec demoResolver 1200 none ∧
    baseSizePanelFixed demoResolver 1200 (some ⟨some 10, some 20, none, none⟩) =
      baseSizePanelFixed demoResolver 1200 (some ⟨some 30, some 40, none, none⟩) :=
  ⟨C4_theorem.1 demoResolver 1200 none,
   C4_theorem.2.1 demoResolver 1200 ⟨some 10, some 20, none, none⟩
     ⟨some 30, some 40, none, none⟩ rfl rfl⟩

/-! ## Claim C9 -/

/-- Claim C9: the unknown-component rule's suppression branch is unreachable. Because
the component pattern is anchored at the line start, the JS match index is always 0,
the text before the match is empty, and the equals-sign suppression test never fires:
whenever a line begins with an unknown non-boolean identifier followed by whitespace,
an opening brace or a quote, the unknown-component warning is always emitted. -/
theorem C9_theorem (data : LangData) (i : Nat) (line : List Char)
    (stack : List BraceEntry) (hasPage : Bool) (name : List Char)
    (h : matchComponentStart line = some name)
    (hcomp : data.isComponent name = false)
    (ht : name ≠ "true".data) (hf : name ≠ "false".data) :
    (⟨⟨i, 0, i, 0 + name.length⟩, unknownComponentMsg name, .warning⟩ : Diagnostic)
      ∈ (checkLine data i line stack hasPage).1 := by
  have hnc := matchComponentStart_not_comment h
  unfold checkLine
  rw [if_neg (by simp [hnc])]
  have hbt : (name == "true".data) = false := by
    simp only [beq_eq_false_iff_ne, ne_eq]
    exact ht
  have hbf : (name == "false".data) = false := by
    simp only [beq_eq_false_iff_ne, ne_eq]
    exact hf
  simp only [List.mem_append]
  refine Or.inl (Or.inl (Or.inl (Or.inr ?_)))
  unfold compDiagsFn
  simp [h, hcomp, hbt, hbf, endsWithEqWs]

/-- Claim C9, witness: the warning is emitted for a concrete line starting with an
unknown identifier followed by a space. -/
theorem C9_witness :
    (⟨⟨0, 0, 0, 0 + "qq".data.length⟩, unknownComponentMsg "qq".data, .warning⟩ :
        Diagnostic)
      ∈ (checkLine emptyLangData 0 "qq ".data [] false).1 :=
  C9_theorem emptyLangData 0 "qq ".data [] false "qq".data (by decide) rfl
    (by decide) (by decide)

/-! ## Claim C10 -/

/-- Claim C10: brace characters inside quoted string literals are not exempt from
brace tracking. The scanner's per-line brace accounting is driven by the total counts
of opening and closing brace characters of the line, quoted or not (first conjunct);
a quoted opening brace changes the enclosing component computed by the backward scan
(second and third conjuncts, where only a quoted brace distinguishes the documents);
and quoted braces alone produce unmatched and unclosed diagnostics (last conjuncts). -/
theorem C10_theorem :
    (∀ (i : Nat) (line : List Char) (stack : List BraceEntry),
       (trackBraces i line line 0 stack).2.length + line.count '\x7d' =
       stack.length + line.count '\x7b' + (trackBraces i line line 0 stack).1.length) ∧
    findParentComponent ["row \x7b".data, "text \"\x7b\"".data, []] 2 0 = none ∧
    findParentComponent ["row \x7b".data, "text".data, []] 2 0 = some "row".data ∧
    countUnmatched (validateDocument emptyLangData "text \"\x7d\"".data) = 1 ∧
    countUnclosed (validateDocument emptyLangData "page \x7b\n\"\x7b\"".data) = 2 :=
  ⟨fun i line stack => trackBraces_count i line line 0 stack,
   by decide, by decide, by decide, by decide⟩

end Wireweave
